import Mathlib

/-!
Verification of the Quotidian reel generator's puzzle core.

Strings are modelled as `List Char`.  Python semantics that matter are kept:
`str.split(' ')` (producing empty pieces between consecutive spaces) is
`pySplit`, Python list assignment `row[i] = c` with negative-index wrap-around
and `IndexError` is `pySet` (returning `Except`), `//` is `Int.fdiv`, and
`int()` on the non-negative durations is `Int.floor`.  The standard library
shuffle `random.shuffle` is Fisher-Yates driven by an abstract stream of draws
`Nat → Nat` (the value drawn for bound `i+1` is reduced `% (i+1)` exactly as a
`randbelow (i+1)` result lies in `[0, i]`); a seeded generator is a function
`Int → Nat → Nat` from the seed to such a stream.  Real-valued durations are
modelled by rationals.
-/

namespace Quotidian

def GRID_COLS : Nat := 12

/-- Quote.PUNCTUATION_MARKS from generate.py (the marks auto-filled, never in
supply).  The quote and apostrophe characters are written by code point. -/
def isPunct (c : Char) : Bool :=
  c == '.' || c == ',' || c == '!' || c == '?' || c == ';' || c == ':' ||
    c == Char.ofNat 34 || c == Char.ofNat 39

/-- A grid cell holds a supply letter iff it is neither the block character
nor punctuation (`char != '#' and char not in PUNCTUATION_MARKS`). -/
def isSupplyChar (c : Char) : Bool :=
  !(c == '#') && !(isPunct c)

/-- Python whitespace test used by `str.strip`. -/
def isWS (c : Char) : Bool :=
  c == ' ' || c == Char.ofNat 9 || c == Char.ofNat 10 || c == Char.ofNat 13

/-- Python `str.strip()`. -/
def pyStrip (l : List Char) : List Char :=
  ((l.dropWhile isWS).reverse.dropWhile isWS).reverse

/-- Quote.answer: strip, drop one trailing sentence mark among `. ! ?`, strip
again (generate.py lines 42-48). -/
def answer (text : List Char) : List Char :=
  let t := pyStrip text
  match t.getLast? with
  | some c => if c == '.' || c == '!' || c == '?' then pyStrip t.dropLast else t
  | none => t

/-- Python `s.split(' ')`: split on every single space, keeping empty pieces. -/
def pySplit : List Char → List (List Char)
  | [] => [[]]
  | c :: rest =>
    let r := pySplit rest
    if c = ' ' then [] :: r
    else
      match r with
      | [] => [[c]]
      | w :: ws => (c :: w) :: ws

/-- The word-wrap loop of `GameState._build_grid` (generate.py lines 219-238),
threading `(lines, current_line, current_length)`. -/
def buildLinesGo (lines : List (List Char)) (cur : List Char) (len : Nat) :
    List (List Char) → List (List Char)
  | [] => if cur.isEmpty then lines else lines ++ [cur]
  | w :: ws =>
    if w.isEmpty then buildLinesGo lines cur len ws
    else
      if len + (if cur.isEmpty then 0 else 1) + w.length ≤ GRID_COLS then
        buildLinesGo lines (if cur.isEmpty then w else cur ++ '#' :: w)
          (len + (if cur.isEmpty then 0 else 1) + w.length) ws
      else
        buildLinesGo (lines ++ [cur]) w w.length ws

def buildLines (ws : List (List Char)) : List (List Char) :=
  buildLinesGo [] [] 0 ws

/-- Python list assignment `l[i] = a`: non-negative indices in range, negative
indices wrap once from the end, anything else raises `IndexError`. -/
def pySet (l : List Char) (i : Int) (a : Char) : Except Unit (List Char) :=
  if 0 ≤ i ∧ i < l.length then .ok (l.set i.toNat a)
  else if -(l.length : Int) ≤ i ∧ i < 0 then .ok (l.set (l.length + i).toNat a)
  else .error ()

/-- The centering loop `for i, char in enumerate(line_chars): row[left_pad+i] = char`
of `_build_grid`, written with the running index. -/
def setChars (row : List Char) (pos : Int) : List Char → Except Unit (List Char)
  | [] => .ok row
  | c :: rest => do setChars (← pySet row pos c) (pos + 1) rest

/-- Center one wrapped line into a GRID_COLS-wide row of blocks
(`empty_spots // 2` is Python floor division). -/
def centerLine (line : List Char) : Except Unit (List Char) :=
  setChars (List.replicate GRID_COLS '#')
    (Int.fdiv ((GRID_COLS : Int) - (line.length : Int)) 2) line

/-- `GameState._build_grid`: split the answer on spaces, wrap into lines, then
center each line. -/
def buildGrid (ans : List Char) : Except Unit (List (List Char)) :=
  (buildLines (pySplit ans)).mapM centerLine

/-- The letters of column `c` collected by the row-major double loop of
`GameState._build_supply`: one candidate cell per row, in row order. -/
def colLetters (rows : List (List Char)) (c : Nat) : List Char :=
  rows.filterMap fun row =>
    match row.get? c with
    | some ch => if isSupplyChar ch then some ch else none
    | none => none

def supplyColumns (rows : List (List Char)) : List (List Char) :=
  (List.range GRID_COLS).map fun c => colLetters rows c

/-- Simultaneous swap `x[i], x[j] = x[j], x[i]` on a list (no-op out of range;
shuffle only uses in-range indices). -/
def listSwap (l : List Char) (i j : Nat) : List Char :=
  match l.get? i, l.get? j with
  | some a, some b => (l.set i b).set j a
  | _, _ => l

/-- CPython `random.shuffle`: `for i in reversed(range(1, len(x)))`, swap `x[i]`
with `x[randbelow(i+1)]`.  `stream k` is the k-th abstract draw of the seeded
generator; it is reduced modulo `i + 1` to land in `[0, i]`. -/
def fyGo (stream : Nat → Nat) : Nat → List Char → Nat → List Char × Nat
  | 0, l, k => (l, k)
  | i + 1, l, k => fyGo stream i (listSwap l (i + 1) (stream k % (i + 2))) (k + 1)

def fisherYates (stream : Nat → Nat) (l : List Char) (k : Nat) : List Char × Nat :=
  fyGo stream (l.length - 1) l k

/-- Shuffle each supply column in index order, all draws coming from the one
stream (the draw counter threads across columns). -/
def shuffleCols (stream : Nat → Nat) : List (List Char) → Nat → List (List Char)
  | [], _ => []
  | col :: rest, k =>
    let p := fisherYates stream col k
    p.1 :: shuffleCols stream rest p.2

/-- `GameState._build_supply`: bucket the letter cells by column, then shuffle
every column with the stream seeded once (generate.py lines 253-269). -/
def buildSupply (stream : Nat → Nat) (rows : List (List Char)) : List (List Char) :=
  shuffleCols stream (supplyColumns rows) 0

/-- Inner loop of `_build_letter_positions`: scan one row left to right,
appending `(r, c)` for every supply cell while fewer than `L` positions exist
(`L` is the length of the answer with spaces removed). -/
def scanRow (r L : Nat) : List Char → Nat → List (Nat × Nat) → List (Nat × Nat)
  | [], _, acc => acc
  | ch :: rest, c, acc =>
    scanRow r L rest (c + 1)
      (if isSupplyChar ch && decide (acc.length < L) then acc ++ [(r, c)] else acc)

def scanRows (L : Nat) : List (List Char) → Nat → List (Nat × Nat) → List (Nat × Nat)
  | [], _, acc => acc
  | row :: rest, r, acc => scanRows L rest (r + 1) (scanRow r L row 0 acc)

/-- `GameState._build_letter_positions` (generate.py lines 271-281). -/
def buildLetterPositions (rows : List (List Char)) (L : Nat) : List (Nat × Nat) :=
  scanRows L rows 0 []

/-- Specification-side row-major scan of the Letter cells, one `(r, c)` per
supply cell, no length guard. -/
def letterCellsRow (r : Nat) : List Char → Nat → List (Nat × Nat)
  | [], _ => []
  | ch :: rest, c =>
    (if isSupplyChar ch then [(r, c)] else []) ++ letterCellsRow r rest (c + 1)

def letterCellsGo : List (List Char) → Nat → List (Nat × Nat)
  | [], _ => []
  | row :: rest, r => letterCellsRow r row 0 ++ letterCellsGo rest (r + 1)

def letterCells (rows : List (List Char)) : List (Nat × Nat) :=
  letterCellsGo rows 0

/-- The mutable state of `GameState` relevant to placement. -/
structure GameState where
  ans : List Char
  rows : List (List Char)
  supply : List (List Char)
  letterPositions : List (Nat × Nat)
  placedSupplyLetters : List Char
  placedCount : Nat
  usedSupplyIndices : List (Nat × Nat)
deriving DecidableEq, Repr

/-- The supply scan of `place_next_letter`: first index `i` of the column that
is not recorded in `used_supply_indices` and whose letter matches
(`any(used_col == col and used_idx == i ...)` is the `List.any`). -/
def findSupply (s : GameState) (col : Nat) (correct : Char) : Option (Nat × Char) :=
  (s.supply.getD col []).enum.find? fun p =>
    !(s.usedSupplyIndices.any fun u => u.1 == col && u.2 == p.1) && (p.2 == correct)

/-- `GameState.place_next_letter` (generate.py lines 294-329).  The two list
indexings are modelled with `Except` so an out-of-range access is an error,
exactly where Python would raise `IndexError`.  In the found case the matching
supply occurrence is recorded; in every non-terminal case the correct letter
is appended and the count incremented. -/
def placeNextLetter (s : GameState) : Except Unit (GameState × Bool) :=
  if s.letterPositions.length ≤ s.placedCount then .ok (s, false)
  else
    match s.letterPositions.get? s.placedCount with
    | none => .error ()
    | some rc =>
      match (s.ans.filter (· ≠ ' ')).get? s.placedCount with
      | none => .error ()
      | some correct =>
        if rc.2 < s.supply.length then
          match findSupply s rc.2 correct with
          | some p =>
            .ok ({ s with
                    usedSupplyIndices := s.usedSupplyIndices ++ [(rc.2, p.1)],
                    placedSupplyLetters := s.placedSupplyLetters ++ [correct],
                    placedCount := s.placedCount + 1 }, true)
          | none =>
            .ok ({ s with
                    placedSupplyLetters := s.placedSupplyLetters ++ [correct],
                    placedCount := s.placedCount + 1 }, true)
        else
          .ok ({ s with
                  placedSupplyLetters := s.placedSupplyLetters ++ [correct],
                  placedCount := s.placedCount + 1 }, true)

/-- Iterated `step()` calls; an index error aborts the run. -/
def runSteps (s : GameState) : Nat → Except Unit GameState
  | 0 => .ok s
  | n + 1 =>
    match placeNextLetter s with
    | .ok p => runSteps p.1 n
    | .error e => .error e

/-- `GameState.__init__` for a given answer: build the grid, the supply and the
letter positions, with empty placement state. -/
def initState (stream : Nat → Nat) (ans : List Char) : Except Unit GameState := do
  let rows ← buildGrid ans
  .ok { ans := ans
        rows := rows
        supply := buildSupply stream rows
        letterPositions := buildLetterPositions rows (ans.filter (· ≠ ' ')).length
        placedSupplyLetters := []
        placedCount := 0
        usedSupplyIndices := [] }

/-- True when the next `step()` either is a terminal no-op or will consume a
supply occurrence (no "multiset mismatch" at this state). -/
def stepConsumes (s : GameState) : Bool :=
  if s.letterPositions.length ≤ s.placedCount then true
  else
    match s.letterPositions.get? s.placedCount, (s.ans.filter (· ≠ ' ')).get? s.placedCount with
    | some rc, some correct => decide (rc.2 < s.supply.length) && (findSupply s rc.2 correct).isSome
    | _, _ => false

def okSat (e : Except Unit GameState) (p : GameState → Bool) : Bool :=
  match e with
  | .ok s => p s
  | .error _ => true

/-! Timeline scheduler (`ReelGenerator.generate_video`), durations in ℚ. -/

def pauseBeforeStart : ℚ := 1 / 5
def maxSolveTime : ℚ := 7
def maxTimePerLetter : ℚ := 3 / 25
def revealFadeDuration : ℚ := 1
def FPS : Nat := 30

def availableTime : ℚ := max 0 (maxSolveTime - pauseBeforeStart)

/-- `time_per_letter` (generate.py lines 714-719). -/
def timePerLetter (N : Nat) : ℚ :=
  if 0 < N then
    if 0 < availableTime then min (availableTime / N) maxTimePerLetter else 0
  else 0

def solveDuration (N : Nat) : ℚ :=
  pauseBeforeStart + N * timePerLetter N

/-- `reveal_hold_duration`: `max(0, fanfare - fade)` when the fanfare duration
was probed, else the 1.0s fallback (generate.py lines 724-729). -/
def revealHoldDuration (fanfare : Option ℚ) : ℚ :=
  match fanfare with
  | some d => max 0 (d - revealFadeDuration)
  | none => 1

/-- `int(duration * FPS)`: truncation; every phase duration is non-negative. -/
def framesOf (d : ℚ) : Nat :=
  (Int.floor (d * (FPS : ℚ))).toNat

def solveFrames (N : Nat) : Nat := framesOf (solveDuration N)
def revealFadeFrames : Nat := framesOf revealFadeDuration
def revealHoldFrames (fanfare : Option ℚ) : Nat := framesOf (revealHoldDuration fanfare)

def totalFrames (N : Nat) (fanfare : Option ℚ) : Nat :=
  solveFrames N + revealFadeFrames + revealHoldFrames fanfare

/-- The indices of the frame files written by the three phases, in order:
phase 1 writes `range solve_frames`, phases 2 and 3 continue from the running
`frame_offset`. -/
def frameIndices (N : Nat) (fanfare : Option ℚ) : List Nat :=
  List.range (solveFrames N) ++
    (List.range revealFadeFrames).map (fun i => solveFrames N + i) ++
    (List.range (revealHoldFrames fanfare)).map
      (fun i => solveFrames N + revealFadeFrames + i)

/-- Target letters visible on frame `f` of the placement phase
(generate.py lines 749-755). -/
def targetPlaced (N sf f : Nat) : Nat :=
  let t : ℚ := (f : ℚ) / (FPS : ℚ)
  if f = sf - 1 then N
  else if pauseBeforeStart < t ∧ 0 < timePerLetter N then
    min N (Int.floor ((t - pauseBeforeStart) / timePerLetter N)).toNat
  else 0

/-- `while state.placed_count < target: if not state.place_next_letter(): break`,
with fuel `target` (placement only ever advances, so this fuel suffices). -/
def ffGo (target : Nat) : Nat → GameState → Except Unit GameState
  | 0, s => .ok s
  | fuel + 1, s =>
    if s.placedCount < target then
      match placeNextLetter s with
      | .ok (s', true) => ffGo target fuel s'
      | .ok (s', false) => .ok s'
      | .error e => .error e
    else .ok s

def fastForward (s : GameState) (target : Nat) : Except Unit GameState :=
  ffGo target target s

/-- State of the simulator after the first `f` frames of the placement phase. -/
def runPhase1 (s : GameState) (N sf : Nat) : Nat → Except Unit GameState
  | 0 => .ok s
  | f + 1 =>
    match runPhase1 s N sf f with
    | .ok s' => fastForward s' (targetPlaced N sf f)
    | .error e => .error e

/-! Quote library (`QuoteLibrary.get_daily_quote`). -/

structure QuoteRec where
  id : Int
  text : List Char
  author : List Char
  source : Option (List Char)
deriving DecidableEq, Repr

def LIBRARY_OFFSET : Int := 0

/-- `QuoteLibrary.get_daily_quote` (generate.py lines 77-88), parametrised by
`days_since_epoch`; the empty-library modulus error and the (unreachable)
index error are `Except` errors. -/
def getDailyQuote (quotes : List QuoteRec) (days : Int) : Except Unit QuoteRec :=
  if days < 0 then
    match quotes.getLast? with
    | some q => .ok ⟨0, q.text, q.author, q.source⟩
    | none => .error ()
  else
    if quotes.length = 0 then .error ()
    else
      match quotes.get? ((days + LIBRARY_OFFSET) % (quotes.length : Int)).toNat with
      | some q =>
        .ok ⟨((((days + LIBRARY_OFFSET) % (quotes.length : Int)).toNat : Nat) : Int) + 1,
          q.text, q.author, q.source⟩
      | none => .error ()

/-- `GameState(quote)`: the supply stream is the seeded generator applied to
`quote.id` (`random.seed(self.quote.id)`). -/
def mkState (seedStream : Int → Nat → Nat) (q : QuoteRec) : Except Unit GameState :=
  initState (seedStream q.id) (answer q.text)

/-! Specification-side definitions used to state the claims. -/

/-- Number of non-space letters of the answer: characters that are neither a
space nor an auto-filled punctuation mark. -/
def nonSpaceLetters (ans : List Char) : List Char :=
  ans.filter fun c => !(c == ' ') && !(isPunct c)

/-- Strip leading and trailing block cells of a row. -/
def trimEnds (row : List Char) : List Char :=
  ((row.dropWhile (· = '#')).reverse.dropWhile (· = '#')).reverse

def blockToSpace (l : List Char) : List Char :=
  l.map fun c => if c = '#' then ' ' else c

/-- Join word groups with single spaces (how the rows' contents re-assemble). -/
def joinWords : List (List Char) → List Char
  | [] => []
  | [w] => w
  | w :: ws => w ++ ' ' :: joinWords ws

/-- Reconstruction of the answer from the layout: per row, drop the padding
blocks and read the remaining cells with interior blocks as spaces; wrapped
rows are joined by the space their wrap consumed. -/
def reconstruct (rows : List (List Char)) : List Char :=
  joinWords (rows.map fun row => blockToSpace (trimEnds row))

/-- The reconstruction exactly as claimed: non-Block, non-Punctuation cells
only, a space wherever a block separates letters of the same line. -/
def claimRecon (rows : List (List Char)) : List Char :=
  joinWords
    (rows.map fun row =>
      (trimEnds row).filterMap fun c =>
        if c = '#' then some ' ' else if isPunct c then none else some c)

/-- The grid of an answer, for concrete evaluation (empty on a build error). -/
def gridOf (ans : List Char) : List (List Char) :=
  match buildGrid ans with
  | .ok rows => rows
  | .error _ => []

/-- The expected centered row for a line that fits: left padding of
`(GRID_COLS - len) / 2` blocks, the line, then the rest. -/
def centered (line : List Char) : List Char :=
  List.replicate ((GRID_COLS - line.length) / 2) '#' ++ line ++
    List.replicate (GRID_COLS - line.length - (GRID_COLS - line.length) / 2) '#'

def goodWord (w : List Char) : Prop :=
  w ≠ [] ∧ w.length ≤ GRID_COLS ∧ '#' ∉ w

/-- A junk state used only as a `getD` default when extracting concrete runs. -/
def junkState : GameState :=
  ⟨[], [], [], [], [], 0, []⟩

/-! Concrete inputs for witnesses and counterexamples. -/

def str0 : Nat → Nat := fun _ => 0

def seedStr0 : Int → Nat → Nat := fun _ _ => 0

def exAns13 : List Char := ['A', 'B', 'C', 'D', 'E', 'F', 'G', 'H', 'I', 'J', 'K', 'L', 'M']

def exAns14 : List Char :=
  ['A', 'B', 'C', 'D', 'E', 'F', 'G', 'H', 'I', 'J', 'K', 'L', 'M', 'N']

def exAnsNoGo : List Char := ['N', 'O', ',', ' ', 'G', 'O']

def exAnsWrap : List Char :=
  ['A', 'B', 'C', 'D', 'E', 'F', 'G', 'H', ' ', 'I', 'J', 'K', 'L', 'M', 'N', 'O', 'P']

def exAnsMis : List Char := ['A', ',', ' ', 'B']

def exAnsAB : List Char := ['A', 'B']

def sMis0 : GameState := (initState str0 exAnsMis).toOption.getD junkState

def sMis1 : GameState := (runSteps sMis0 1).toOption.getD junkState

def sAB0 : GameState := (initState str0 exAnsAB).toOption.getD junkState

def sAB3 : GameState := (runSteps sAB0 3).toOption.getD junkState

def exLib : List QuoteRec :=
  [⟨7, ['X', ' ', 'Y'], ['A'], none⟩, ⟨9, ['Z', ' ', 'W'], ['B'], none⟩]

/-!  ## Properties of the word-wrap loop  -/

lemma isSupplyChar_hash : isSupplyChar '#' = false := rfl

lemma bts_id (w : List Char) (h : '#' ∉ w) : blockToSpace w = w := by
  unfold blockToSpace
  have hmap : w.map (fun c => if c = '#' then ' ' else c) = w.map id :=
    List.map_congr_left fun a ha => by
      have hne : a ≠ '#' := fun hae => h (hae ▸ ha)
      rw [if_neg hne]
      rfl
  rw [hmap, List.map_id]

lemma head?_ne_hash (w : List Char) (h : '#' ∉ w) : w.head? ≠ some '#' := by
  intro hh
  exact h (List.mem_of_mem_head? (by simp [hh]))

lemma getLast?_ne_hash (w : List Char) (h : '#' ∉ w) : w.getLast? ≠ some '#' := by
  intro hh
  exact h (List.mem_of_mem_getLast? (by simp [hh]))

lemma buildLinesGo_len : ∀ (ws lines : List (List Char)) (cur : List Char) (len : Nat),
    (∀ w ∈ ws, w.length ≤ GRID_COLS) → cur.length ≤ GRID_COLS → len = cur.length →
    (∀ l ∈ lines, l.length ≤ GRID_COLS) →
    ∀ l ∈ buildLinesGo lines cur len ws, l.length ≤ GRID_COLS := by
  intro ws
  induction ws with
  | nil =>
    intro lines cur len _ hcur _ hlines l hl
    unfold buildLinesGo at hl
    by_cases hc : cur.isEmpty
    · rw [if_pos hc] at hl
      exact hlines l hl
    · rw [if_neg hc] at hl
      rcases List.mem_append.mp hl with h | h
      · exact hlines l h
      · rw [List.mem_singleton] at h
        exact h ▸ hcur
  | cons w ws ih =>
    intro lines cur len hws hcur hlen hlines l hl
    unfold buildLinesGo at hl
    by_cases hw : w.isEmpty
    · rw [if_pos hw] at hl
      exact ih lines cur len (fun v hv => hws v (List.mem_cons_of_mem w hv)) hcur hlen hlines l hl
    · rw [if_neg hw] at hl
      by_cases hfit : len + (if cur.isEmpty then 0 else 1) + w.length ≤ GRID_COLS
      · rw [if_pos hfit] at hl
        refine ih lines _ _ (fun v hv => hws v (List.mem_cons_of_mem w hv)) ?_ ?_ hlines l hl
        · by_cases hce : cur.isEmpty
          · rw [if_pos hce]
            rw [if_pos hce] at hfit
            have : cur = [] := List.isEmpty_iff.mp hce
            subst hlen
            simp [this] at hfit
            omega
          · rw [if_neg hce]
            rw [if_neg hce] at hfit
            subst hlen
            simp only [List.length_append, List.length_cons]
            omega
        · by_cases hce : cur.isEmpty
          · rw [if_pos hce, if_pos hce]
            have : cur = [] := List.isEmpty_iff.mp hce
            subst hlen
            simp [this]
          · rw [if_neg hce, if_neg hce]
            subst hlen
            simp
            omega
      · rw [if_neg hfit] at hl
        refine ih (lines ++ [cur]) w w.length (fun v hv => hws v (List.mem_cons_of_mem w hv))
          (hws w (List.mem_cons_self w ws)) rfl ?_ l hl
        intro v hv
        rcases List.mem_append.mp hv with h | h
        · exact hlines v h
        · rw [List.mem_singleton] at h
          exact h ▸ hcur

lemma buildLinesGo_flat : ∀ (ws lines : List (List Char)) (cur : List Char) (len : Nat),
    ((buildLinesGo lines cur len ws).flatten).filter isSupplyChar =
      ((lines.flatten ++ (cur ++ ws.flatten))).filter isSupplyChar := by
  intro ws
  induction ws with
  | nil =>
    intro lines cur len
    unfold buildLinesGo
    by_cases hc : cur.isEmpty
    · rw [if_pos hc]
      have : cur = [] := List.isEmpty_iff.mp hc
      simp [this]
    · rw [if_neg hc]
      simp
  | cons w ws ih =>
    intro lines cur len
    unfold buildLinesGo
    by_cases hw : w.isEmpty
    · rw [if_pos hw]
      have hwnil : w = [] := List.isEmpty_iff.mp hw
      rw [ih]
      simp [hwnil]
    · rw [if_neg hw]
      by_cases hfit : len + (if cur.isEmpty then 0 else 1) + w.length ≤ GRID_COLS
      · rw [if_pos hfit, ih]
        by_cases hce : cur.isEmpty
        · have : cur = [] := List.isEmpty_iff.mp hce
          simp [this, hce]
        · rw [if_neg hce]
          simp [List.filter_append, isSupplyChar_hash]
      · rw [if_neg hfit, ih]
        simp [List.filter_append]

end Quotidian

namespace Quotidian

/-!  ## C7: determinism of the supply shuffle  -/

/-- C7: for a fixed seed (here: equal seeds fed to any seeded generator
`f : Int → Nat → Nat`), two runs of the supply builder on the same layout
produce identical per-column orderings — the shuffle is a deterministic
function of the layout and the seed, drawing from one stream with columns
processed in index order (`buildSupply` threads one draw counter through the
columns in order). -/
theorem supply_shuffle_deterministic (f : Int → Nat → Nat) (rows : List (List Char))
    (s₁ s₂ : Int) (h : s₁ = s₂) :
    buildSupply (f s₁) rows = buildSupply (f s₂) rows := by
  rw [h]

theorem supply_shuffle_deterministic_witness :
    buildSupply (seedStr0 5) [['#', 'A', 'B']] = buildSupply (seedStr0 5) [['#', 'A', 'B']] :=
  supply_shuffle_deterministic seedStr0 [['#', 'A', 'B']] 5 5 rfl

/-!  ## C8: timeline durations  -/

/-- C8: `per_letter_time` is `0` for `N = 0` and otherwise
`min(max(0, max_solve_time - pause_before_start) / N, max_time_per_letter)`;
`solve_duration = pause_before_start + N * per_letter_time`;
`reveal_hold_duration` is `max(0, fanfare - reveal_fade_duration)` when the
fanfare duration is known and `1.0` otherwise; for `N = 50` this gives
`per_letter_time = 0.12` and `solve_duration = 6.2`. -/
theorem timeline_durations :
    (∀ N : Nat, timePerLetter N =
      if N = 0 then 0
      else min (max 0 (maxSolveTime - pauseBeforeStart) / N) maxTimePerLetter) ∧
    (∀ N : Nat, solveDuration N = pauseBeforeStart + N * timePerLetter N) ∧
    (∀ d : ℚ, revealHoldDuration (some d) = max 0 (d - revealFadeDuration)) ∧
    revealHoldDuration none = 1 ∧
    timePerLetter 50 = 3 / 25 ∧
    solveDuration 50 = 31 / 5 := by
  have hmax : max (0 : ℚ) (maxSolveTime - pauseBeforeStart) = 34 / 5 := by
    norm_num [maxSolveTime, pauseBeforeStart]
  have htpl : ∀ N : Nat, timePerLetter N =
      if N = 0 then 0
      else min (max 0 (maxSolveTime - pauseBeforeStart) / N) maxTimePerLetter := by
    intro N
    match N with
    | 0 => simp [timePerLetter]
    | N + 1 =>
      rw [timePerLetter, if_pos (Nat.succ_pos N), if_neg (Nat.succ_ne_zero N), availableTime,
        if_pos (by rw [hmax]; norm_num)]
  have h50 : timePerLetter 50 = 3 / 25 := by
    rw [htpl 50, if_neg (by norm_num), hmax, min_eq_right (by norm_num [maxTimePerLetter]),
      maxTimePerLetter]
  refine ⟨htpl, fun N => rfl, fun d => rfl, rfl, h50, ?_⟩
  rw [solveDuration, h50, pauseBeforeStart]
  norm_num

/-!  ## C2: overlong words crash or truncate the layout  -/

/-- C2 is false of the code: a single 14-letter word makes `_build_grid` raise
an `IndexError` (the centering loop assigns `row[left_pad + i]` with
`left_pad = -1`, and index `12` is out of range), so the build does not
complete. -/
theorem overlong_word_layout_error : buildGrid exAns14 = .error () := rfl

/-!  ## C1: counterexample (layout loses a letter of a 13-letter word)  -/

/-- C1 as stated is false: for the single 13-letter word answer the layout
builds successfully, but the negative `left_pad = -1` makes the first
character land on (and be overwritten at) the last cell, so there are only 12
Letter cells against 13 non-space letters of the answer. -/
theorem letter_positions_count_counterexample :
    buildGrid exAns13 = .ok (gridOf exAns13) ∧
      (letterCells (gridOf exAns13)).length ≠ (nonSpaceLetters exAns13).length :=
  ⟨rfl, by decide⟩

/-!  ## C3: counterexample (the stated reconstruction drops punctuation)  -/

/-- C3 as stated is false: the claimed reconstruction concatenates only
non-Block, non-Punctuation cells, so for an answer containing an internal
punctuation mark the comma cell is dropped and the answer is not reproduced. -/
theorem reconstruction_counterexample :
    buildGrid exAnsNoGo = .ok (gridOf exAnsNoGo) ∧ claimRecon (gridOf exAnsNoGo) ≠ exAnsNoGo :=
  ⟨rfl, by decide⟩

/-!  ## C5: every shuffled supply column is a permutation of its column's letters  -/

lemma cons_set_perm (t : List Char) :
    ∀ (m : Nat) (b x : Char), t.get? m = some b → (b :: t.set m x).Perm (x :: t) := by
  induction t with
  | nil => intro m b x h; simp at h
  | cons y t ih =>
    intro m b x h
    match m with
    | 0 =>
      simp only [List.get?] at h
      cases h
      exact List.Perm.swap x y t
    | m + 1 =>
      simp only [List.get?] at h
      exact ((List.Perm.swap y b (t.set m x)).trans ((ih m b x h).cons y)).trans
        (List.Perm.swap x y t)

lemma set_set_perm (l : List Char) :
    ∀ (i j : Nat) (a b : Char), l.get? i = some a → l.get? j = some b →
      ((l.set i b).set j a).Perm l := by
  induction l with
  | nil => intro i j a b hi _; simp at hi
  | cons x t ih =>
    intro i j a b hi hj
    match i, j with
    | 0, 0 =>
      simp only [List.get?] at hi hj
      cases hi; cases hj
      simp
    | 0, j + 1 =>
      simp only [List.get?] at hi hj
      cases hi
      simpa using cons_set_perm t j b x hj
    | i + 1, 0 =>
      simp only [List.get?] at hi hj
      cases hj
      simpa using cons_set_perm t i a x hi
    | i + 1, j + 1 =>
      simp only [List.get?] at hi hj
      simpa using (ih i j a b hi hj).cons x

lemma listSwap_perm (l : List Char) (i j : Nat) : (listSwap l i j).Perm l := by
  unfold listSwap
  cases hi : l.get? i with
  | none => exact List.Perm.refl l
  | some a =>
    cases hj : l.get? j with
    | none => exact List.Perm.refl l
    | some b => exact set_set_perm l i j a b hi hj

lemma fyGo_perm (stream : Nat → Nat) :
    ∀ (i : Nat) (l : List Char) (k : Nat), (fyGo stream i l k).1.Perm l := by
  intro i
  induction i with
  | zero => intro l k; exact List.Perm.refl l
  | succ i ih =>
    intro l k
    exact (ih _ _).trans (listSwap_perm l (i + 1) (stream k % (i + 2)))

lemma shuffleCols_perm (stream : Nat → Nat) :
    ∀ (cols : List (List Char)) (k c : Nat),
      ((shuffleCols stream cols k).getD c []).Perm (cols.getD c []) := by
  intro cols
  induction cols with
  | nil => intro k c; exact List.Perm.refl _
  | cons col rest ih =>
    intro k c
    match c with
    | 0 => simpa [shuffleCols] using fyGo_perm stream (col.length - 1) col k
    | c + 1 => simpa [shuffleCols] using ih _ c

/-- C5: for every layout, every abstract draw stream of the seeded generator,
and every column index `c < GRID_COLS`, the shuffled supply column `c` is a
permutation (equal multiset) of the Letter cells at column `c` across the
layout, in row-major order. -/
theorem supply_column_multiset (stream : Nat → Nat) (rows : List (List Char))
    (c : Nat) (hc : c < GRID_COLS) :
    ((buildSupply stream rows).getD c []).Perm (colLetters rows c) := by
  have hcol : (supplyColumns rows).getD c [] = colLetters rows c := by
    unfold supplyColumns
    simp [List.getD, List.getElem?_map, List.getElem?_range, hc]
  exact (shuffleCols_perm stream (supplyColumns rows) 0 c).trans (hcol ▸ List.Perm.refl _)

theorem supply_column_multiset_witness :
    ((buildSupply str0 (gridOf exAnsNoGo)).getD 4 []).Perm (colLetters (gridOf exAnsNoGo) 4) :=
  supply_column_multiset str0 (gridOf exAnsNoGo) 4 (by decide)

/-!  ## C4: a supply mismatch does not crash the step  -/

/-- C4: if `step()` is called in a non-terminal state and no unused occurrence
of the target character exists in the target column's supply, the step
completes without an error: `used_supply` is left unchanged, the target
character is still appended to the placed-letters record, and `placed_count`
is incremented by one. -/
theorem step_mismatch_no_crash (s : GameState)
    (h1 : s.placedCount < s.letterPositions.length)
    (h2 : s.placedCount < (s.ans.filter (· ≠ ' ')).length)
    (h3 : findSupply s (s.letterPositions.getD s.placedCount (0, 0)).2
      ((s.ans.filter (· ≠ ' ')).getD s.placedCount ' ') = none) :
    placeNextLetter s =
      .ok ({ s with
              placedSupplyLetters := s.placedSupplyLetters ++
                [(s.ans.filter (· ≠ ' ')).getD s.placedCount ' '],
              placedCount := s.placedCount + 1 }, true) := by
  have hget1 : s.letterPositions.get? s.placedCount =
      some (s.letterPositions.getD s.placedCount (0, 0)) := by
    rw [List.getD_eq_getElem _ _ h1]
    exact List.get?_eq_get h1
  have hget2 : (s.ans.filter (· ≠ ' ')).get? s.placedCount =
      some ((s.ans.filter (· ≠ ' ')).getD s.placedCount ' ') := by
    rw [List.getD_eq_getElem _ _ h2]
    exact List.get?_eq_get h2
  unfold placeNextLetter
  rw [if_neg (by omega), hget1, hget2]
  simp only [h3]
  split <;> rfl

theorem step_mismatch_no_crash_witness :
    placeNextLetter sMis1 =
      .ok ({ sMis1 with
              placedSupplyLetters := sMis1.placedSupplyLetters ++
                [(sMis1.ans.filter (· ≠ ' ')).getD sMis1.placedCount ' '],
              placedCount := sMis1.placedCount + 1 }, true) :=
  step_mismatch_no_crash sMis1 (by decide) (by decide) (by decide)

/-!  ## Invariants of the placement stepper  -/

lemma findSupply_not_used (s : GameState) (col : Nat) (correct : Char)
    (p : Nat × Char) (h : findSupply s col correct = some p) :
    (col, p.1) ∉ s.usedSupplyIndices := by
  unfold findSupply at h
  have hp := List.find?_some h
  simp only [Bool.and_eq_true, Bool.not_eq_true'] at hp
  have hnot := hp.1
  intro hmem
  have hany : (s.usedSupplyIndices.any fun u => u.1 == col && u.2 == p.1) = true :=
    List.any_eq_true.mpr ⟨(col, p.1), hmem, by simp⟩
  rw [hnot] at hany
  exact absurd hany (by simp)

lemma initState_inv (stream : Nat → Nat) (ans : List Char) (s0 : GameState)
    (h0 : initState stream ans = .ok s0) :
    s0.ans = ans ∧ s0.placedCount = 0 ∧ s0.usedSupplyIndices = [] ∧
      s0.placedSupplyLetters = [] ∧ buildGrid ans = .ok s0.rows ∧
      s0.letterPositions = buildLetterPositions s0.rows (ans.filter (· ≠ ' ')).length := by
  unfold initState at h0
  cases hb : buildGrid ans with
  | error e => rw [hb] at h0; exact absurd h0 (by simp [Bind.bind, Except.bind])
  | ok rows =>
    rw [hb] at h0
    simp only [Bind.bind, Except.bind, Except.ok.injEq] at h0
    subst h0
    exact ⟨rfl, rfl, rfl, rfl, rfl, rfl⟩

lemma scanRow_le (r L : Nat) :
    ∀ (row : List Char) (c : Nat) (acc : List (Nat × Nat)),
      acc.length ≤ L → (scanRow r L row c acc).length ≤ L := by
  intro row
  induction row with
  | nil => intro c acc h; exact h
  | cons ch rest ih =>
    intro c acc h
    unfold scanRow
    by_cases hg : isSupplyChar ch && decide (acc.length < L)
    · have hlt : acc.length < L := by
        have := hg
        simp only [Bool.and_eq_true, decide_eq_true_eq] at this
        exact this.2
      rw [if_pos hg]
      exact ih (c + 1) _ (by simp; omega)
    · rw [if_neg hg]
      exact ih (c + 1) acc h

lemma scanRows_le (L : Nat) :
    ∀ (rows : List (List Char)) (r : Nat) (acc : List (Nat × Nat)),
      acc.length ≤ L → (scanRows L rows r acc).length ≤ L := by
  intro rows
  induction rows with
  | nil => intro r acc h; exact h
  | cons row rest ih =>
    intro r acc h
    exact ih (r + 1) _ (scanRow_le r L row 0 acc h)

lemma buildLetterPositions_le (rows : List (List Char)) (L : Nat) :
    (buildLetterPositions rows L).length ≤ L :=
  scanRows_le L rows 0 [] (by simp)

lemma initState_pos_le (stream : Nat → Nat) (ans : List Char) (s0 : GameState)
    (h0 : initState stream ans = .ok s0) :
    s0.letterPositions.length ≤ (s0.ans.filter (· ≠ ' ')).length := by
  obtain ⟨ha, -, -, -, -, hp⟩ := initState_inv stream ans s0 h0
  rw [hp, ha]
  exact buildLetterPositions_le _ _

/-- Exhaustive description of one `step()` call that returned `ok`. -/
lemma place_cases (s s' : GameState) (b : Bool) (h : placeNextLetter s = .ok (s', b)) :
    (s.letterPositions.length ≤ s.placedCount ∧ s' = s ∧ b = false) ∨
    (s.placedCount < s.letterPositions.length ∧
      s.placedCount < (s.ans.filter (· ≠ ' ')).length ∧ b = true ∧
      s'.ans = s.ans ∧ s'.rows = s.rows ∧ s'.supply = s.supply ∧
      s'.letterPositions = s.letterPositions ∧
      s'.placedCount = s.placedCount + 1 ∧
      s'.placedSupplyLetters = s.placedSupplyLetters ++
        [(s.ans.filter (· ≠ ' ')).getD s.placedCount ' '] ∧
      ((stepConsumes s = true ∧
          ∃ i, (((s.letterPositions.getD s.placedCount (0, 0)).2, i) ∉ s.usedSupplyIndices ∧
            s'.usedSupplyIndices = s.usedSupplyIndices ++
              [((s.letterPositions.getD s.placedCount (0, 0)).2, i)])) ∨
        (stepConsumes s = false ∧ s'.usedSupplyIndices = s.usedSupplyIndices))) := by
  unfold placeNextLetter at h
  split at h
  case isTrue hterm =>
    simp only [Except.ok.injEq, Prod.mk.injEq] at h
    exact Or.inl ⟨hterm, h.1.symm, h.2.symm⟩
  case isFalse hterm =>
  split at h
  next => exact absurd h (by simp)
  next rc hsc1 =>
  split at h
  next => exact absurd h (by simp)
  next correct hsc2 =>
  have hlt1 : s.placedCount < s.letterPositions.length := by omega
  have hlt2 : s.placedCount < (s.ans.filter (· ≠ ' ')).length :=
    (List.get?_eq_some.mp hsc2).choose
  have hgd1 : s.letterPositions.getD s.placedCount (0, 0) = rc := by
    obtain ⟨hb, he⟩ := List.get?_eq_some.mp hsc1
    rw [List.getD_eq_getElem _ _ hb]
    simpa using he
  have hgd2 : (s.ans.filter (· ≠ ' ')).getD s.placedCount ' ' = correct := by
    obtain ⟨hb, he⟩ := List.get?_eq_some.mp hsc2
    rw [List.getD_eq_getElem _ _ hb]
    simpa using he
  rw [hgd2]
  refine Or.inr ⟨hlt1, hlt2, ?_⟩
  split at h
  case isTrue hcol =>
    split at h
    next p hfind =>
      simp only [Except.ok.injEq, Prod.mk.injEq] at h
      obtain ⟨hs', hb⟩ := h
      subst hs'
      refine ⟨hb.symm, rfl, rfl, rfl, rfl, rfl, rfl, Or.inl ⟨?_, p.1, ?_, ?_⟩⟩
      · unfold stepConsumes
        rw [if_neg hterm, hsc1, hsc2]
        simp [hfind, hcol]
      · rw [hgd1]; exact findSupply_not_used s rc.2 correct p hfind
      · rw [hgd1]
    next hfind =>
      simp only [Except.ok.injEq, Prod.mk.injEq] at h
      obtain ⟨hs', hb⟩ := h
      subst hs'
      refine ⟨hb.symm, rfl, rfl, rfl, rfl, rfl, rfl, Or.inr ⟨?_, rfl⟩⟩
      unfold stepConsumes
      rw [if_neg hterm, hsc1, hsc2]
      simp [hfind]
  case isFalse hcol =>
    simp only [Except.ok.injEq, Prod.mk.injEq] at h
    obtain ⟨hs', hb⟩ := h
    subst hs'
    refine ⟨hb.symm, rfl, rfl, rfl, rfl, rfl, rfl, Or.inr ⟨?_, rfl⟩⟩
    unfold stepConsumes
    rw [if_neg hterm, hsc1, hsc2]
    simp [hcol]

lemma place_nodup (s s' : GameState) (b : Bool) (h : placeNextLetter s = .ok (s', b))
    (hd : s.usedSupplyIndices.Nodup) : s'.usedSupplyIndices.Nodup := by
  rcases place_cases s s' b h with ⟨-, rfl, -⟩ | ⟨-, -, -, -, -, -, -, -, -, hu⟩
  · exact hd
  · rcases hu with ⟨-, i, hnot, hset⟩ | ⟨-, hset⟩
    · rw [hset, List.nodup_append]
      refine ⟨hd, List.nodup_singleton _, ?_⟩
      intro x hx hx'
      simp only [List.mem_singleton] at hx'
      subst hx'
      exact hnot hx
    · rw [hset]; exact hd

lemma place_count_used (s s' : GameState) (b : Bool) (h : placeNextLetter s = .ok (s', b))
    (hc : stepConsumes s = true) (hlen : s.usedSupplyIndices.length = s.placedCount) :
    s'.usedSupplyIndices.length = s'.placedCount := by
  rcases place_cases s s' b h with ⟨-, rfl, -⟩ | ⟨-, -, -, -, -, -, -, hcnt, -, hu⟩
  · exact hlen
  · rcases hu with ⟨-, i, -, hset⟩ | ⟨hfalse, -⟩
    · rw [hset, hcnt]
      simp [hlen]
    · rw [hfalse] at hc; exact absurd hc (by simp)

lemma runSteps_nodup :
    ∀ (n : Nat) (s s' : GameState), runSteps s n = .ok s' →
      s.usedSupplyIndices.Nodup → s'.usedSupplyIndices.Nodup := by
  intro n
  induction n with
  | zero =>
    intro s s' h hd
    simp only [runSteps, Except.ok.injEq] at h
    exact h ▸ hd
  | succ n ih =>
    intro s s' h hd
    unfold runSteps at h
    cases hp : placeNextLetter s with
    | error e => rw [hp] at h; exact absurd h (by simp)
    | ok p =>
      rw [hp] at h
      exact ih p.1 s' h (place_nodup s p.1 p.2 hp hd)

lemma runSteps_shift (s : GameState) (p : GameState × Bool) (k : Nat)
    (hp : placeNextLetter s = .ok p) : runSteps s (k + 1) = runSteps p.1 k := by
  show (match placeNextLetter s with
    | .ok q => runSteps q.1 k
    | .error e => Except.error e) = runSteps p.1 k
  rw [hp]

lemma runSteps_count :
    ∀ (n : Nat) (s s' : GameState), runSteps s n = .ok s' →
      (∀ k, k < n → okSat (runSteps s k) stepConsumes = true) →
      s.usedSupplyIndices.length = s.placedCount →
      s'.usedSupplyIndices.length = s'.placedCount := by
  intro n
  induction n with
  | zero =>
    intro s s' h _ hlen
    simp only [runSteps, Except.ok.injEq] at h
    exact h ▸ hlen
  | succ n ih =>
    intro s s' h hall hlen
    unfold runSteps at h
    cases hp : placeNextLetter s with
    | error e => rw [hp] at h; exact absurd h (by simp)
    | ok p =>
      rw [hp] at h
      have hc0 : stepConsumes s = true := by
        have := hall 0 (Nat.succ_pos n)
        simpa [runSteps, okSat] using this
      refine ih p.1 s' h ?_ (place_count_used s p.1 p.2 hp hc0 hlen)
      intro k hk
      have := hall (k + 1) (by omega)
      rwa [runSteps_shift s p k hp] at this

/-!  ## C6: placement uniqueness  -/

/-- C6: for every run of the simulator (any number of `step()` calls from a
freshly built state), `used_supply` never contains a duplicate
`(column, index)` pair, and whenever every executed step found a matching
unused supply occurrence (no multiset-mismatch edge case, expressed by
`stepConsumes` holding along the run) the size of `used_supply` equals
`placed_count`. -/
theorem placement_uniqueness (stream : Nat → Nat) (ans : List Char) (n : Nat)
    (s0 s : GameState) (h0 : initState stream ans = .ok s0)
    (hrun : runSteps s0 n = .ok s) :
    s.usedSupplyIndices.Nodup ∧
      ((∀ k, k < n → okSat (runSteps s0 k) stepConsumes = true) →
        s.usedSupplyIndices.length = s.placedCount) := by
  obtain ⟨-, hcnt, hused, -, -, -⟩ := initState_inv stream ans s0 h0
  constructor
  · exact runSteps_nodup n s0 s hrun (by rw [hused]; exact List.nodup_nil)
  · intro hall
    exact runSteps_count n s0 s hrun hall (by rw [hused, hcnt]; rfl)

theorem placement_uniqueness_witness :
    sAB3.usedSupplyIndices.Nodup ∧
      ((∀ k, k < 3 → okSat (runSteps sAB0 k) stepConsumes = true) →
        sAB3.usedSupplyIndices.length = sAB3.placedCount) :=
  placement_uniqueness str0 exAnsAB 3 sAB0 sAB3 (by rfl) (by rfl)

/-!  ## C9: frame counts and final placement frame  -/

lemma place_no_error (s : GameState)
    (h2 : s.letterPositions.length ≤ (s.ans.filter (· ≠ ' ')).length)
    (e : Unit) (he : placeNextLetter s = .error e) : False := by
  unfold placeNextLetter at he
  split at he
  next => exact absurd he (by simp)
  next hterm =>
  split at he
  next hsc1 =>
    have := List.get?_eq_none.mp hsc1
    omega
  next rc hsc1 =>
  split at he
  next hsc2 =>
    have := List.get?_eq_none.mp hsc2
    omega
  next correct hsc2 =>
  split at he
  · split at he <;> exact absurd he (by simp)
  · exact absurd he (by simp)

lemma place_ok (s : GameState)
    (h2 : s.letterPositions.length ≤ (s.ans.filter (· ≠ ' ')).length) :
    ∃ p, placeNextLetter s = .ok p := by
  cases hp : placeNextLetter s with
  | ok p => exact ⟨p, rfl⟩
  | error e => exact absurd (place_no_error s h2 e hp) (by simp)

lemma ffGo_spec :
    ∀ (fuel target : Nat) (s : GameState),
      s.letterPositions.length ≤ (s.ans.filter (· ≠ ' ')).length →
      s.placedCount ≤ s.letterPositions.length →
      target ≤ s.placedCount + fuel →
      ∃ s', ffGo target fuel s = .ok s' ∧
        s'.letterPositions = s.letterPositions ∧ s'.ans = s.ans ∧
        s'.placedCount = (if target ≤ s.placedCount then s.placedCount
          else min target s.letterPositions.length) := by
  intro fuel
  induction fuel with
  | zero =>
    intro target s h2 hcle hfuel
    exact ⟨s, rfl, rfl, rfl, by rw [if_pos (by omega)]⟩
  | succ fuel ih =>
    intro target s h2 hcle hfuel
    by_cases hlt : s.placedCount < target
    · obtain ⟨⟨s1, b1⟩, hp⟩ := place_ok s h2
      rcases place_cases s s1 b1 hp with ⟨hterm, hs, hb⟩ | ⟨h1, -, hb, hans, -, -, hpos, hcnt, -, -⟩
      · subst hb
        refine ⟨s1, ?_, by rw [hs], by rw [hs], ?_⟩
        · unfold ffGo
          rw [if_pos hlt, hp]
        · rw [hs, if_neg (by omega)]
          omega
      · subst hb
        obtain ⟨s', hff, hpos', hans', hcnt'⟩ := ih target s1
          (by rw [hpos, hans]; exact h2) (by rw [hpos, hcnt]; omega) (by omega)
        refine ⟨s', ?_, by rw [hpos', hpos], by rw [hans', hans], ?_⟩
        · unfold ffGo
          rw [if_pos hlt, hp]
          exact hff
        · rw [hcnt', hcnt, hpos]
          split_ifs <;> omega
    · refine ⟨s, ?_, rfl, rfl, by rw [if_pos (by omega)]⟩
      unfold ffGo
      rw [if_neg hlt]

lemma targetPlaced_le (N sf f : Nat) : targetPlaced N sf f ≤ N := by
  simp only [targetPlaced]
  split_ifs <;> omega

lemma runPhase1_succ (s : GameState) (N sf f : Nat) :
    runPhase1 s N sf (f + 1) =
      match runPhase1 s N sf f with
      | .ok t => fastForward t (targetPlaced N sf f)
      | .error e => .error e := rfl

lemma runPhase1_ok (N sf : Nat) :
    ∀ (f : Nat) (s : GameState),
      s.letterPositions.length ≤ (s.ans.filter (· ≠ ' ')).length →
      s.placedCount ≤ N → s.letterPositions.length = N →
      ∃ s', runPhase1 s N sf f = .ok s' ∧ s'.letterPositions = s.letterPositions ∧
        s'.ans = s.ans ∧ s'.placedCount ≤ N := by
  intro f
  induction f with
  | zero => intro s h2 hcN _; exact ⟨s, rfl, rfl, rfl, hcN⟩
  | succ f ih =>
    intro s h2 hcN hlen
    obtain ⟨s', hrun, hpos', hans', hcN'⟩ := ih s h2 hcN hlen
    obtain ⟨s'', hff, hpos'', hans'', hcnt''⟩ := ffGo_spec (targetPlaced N sf f)
      (targetPlaced N sf f) s' (by rw [hpos', hans']; exact h2)
      (by rw [hpos', hlen]; omega) (by omega)
    refine ⟨s'', ?_, by rw [hpos'', hpos'], by rw [hans'', hans'], ?_⟩
    · rw [runPhase1_succ, hrun]
      exact hff
    · rw [hcnt'']
      have := targetPlaced_le N sf f
      have hl' : s'.letterPositions.length = N := by rw [hpos', hlen]
      split_ifs <;> omega

lemma timePerLetter_nonneg (N : Nat) : 0 ≤ timePerLetter N := by
  unfold timePerLetter
  split_ifs with h1 h2
  · refine le_min (div_nonneg ?_ (by positivity)) (by norm_num [maxTimePerLetter])
    exact le_max_left 0 _
  · exact le_refl 0
  · exact le_refl 0

lemma solveFrames_pos (N : Nat) : 1 ≤ solveFrames N := by
  have htpl := timePerLetter_nonneg N
  have hNt : 0 ≤ (N : ℚ) * timePerLetter N := mul_nonneg (by positivity) htpl
  have hd : (1 : ℚ) / 5 ≤ solveDuration N := by
    unfold solveDuration pauseBeforeStart
    linarith
  have h6 : (6 : Int) ≤ Int.floor (solveDuration N * ((FPS : Nat) : ℚ)) := by
    rw [Int.le_floor]
    have h30 : ((FPS : Nat) : ℚ) = 30 := by norm_num [FPS]
    rw [h30]
    push_cast
    linarith
  unfold solveFrames framesOf
  omega

/-- C9: each phase's frame count is the floor of its own duration times the
frame rate (`solveFrames`, `revealFadeFrames`, `revealHoldFrames` are each
defined as `framesOf` of one phase duration); the frame files produced by the
three phases are exactly `0, 1, ..., total_frames - 1` where `total_frames` is
the sum of the three independent counts; and after the final placement frame
(index `solve_frames - 1`) the simulator has `placed_count = N`. -/
theorem frame_coverage (stream : Nat → Nat) (ans : List Char) (fanfare : Option ℚ)
    (s0 : GameState) (h0 : initState stream ans = .ok s0) :
    frameIndices s0.letterPositions.length fanfare =
        List.range (totalFrames s0.letterPositions.length fanfare) ∧
      totalFrames s0.letterPositions.length fanfare =
        solveFrames s0.letterPositions.length + revealFadeFrames + revealHoldFrames fanfare ∧
      ∃ s', runPhase1 s0 s0.letterPositions.length (solveFrames s0.letterPositions.length)
          (solveFrames s0.letterPositions.length) = .ok s' ∧
        s'.placedCount = s0.letterPositions.length := by
  refine ⟨?_, rfl, ?_⟩
  · simp only [frameIndices, totalFrames, List.range_add, List.append_assoc]
  · have h2 := initState_pos_le stream ans s0 h0
    obtain ⟨-, hcnt0, -, -, -, -⟩ := initState_inv stream ans s0 h0
    have hsf : 1 ≤ solveFrames s0.letterPositions.length :=
      solveFrames_pos s0.letterPositions.length
    obtain ⟨m, hm⟩ : ∃ m, solveFrames s0.letterPositions.length = m + 1 :=
      ⟨solveFrames s0.letterPositions.length - 1, by omega⟩
    rw [hm]
    obtain ⟨s', hrun, hpos', hans', hcN'⟩ := runPhase1_ok s0.letterPositions.length (m + 1)
      m s0 h2 (by omega) rfl
    have htarget : targetPlaced s0.letterPositions.length (m + 1) m =
        s0.letterPositions.length := by
      simp [targetPlaced]
    obtain ⟨s'', hff, hpos'', hans'', hcnt''⟩ := ffGo_spec s0.letterPositions.length
      s0.letterPositions.length s' (by rw [hpos', hans']; exact h2)
      (by rw [hpos']; exact hcN') (by omega)
    refine ⟨s'', ?_, ?_⟩
    · rw [runPhase1_succ, hrun, htarget]
      exact hff
    · rw [hcnt'', hpos']
      split_ifs <;> omega

theorem frame_coverage_witness :
    frameIndices sAB0.letterPositions.length none =
        List.range (totalFrames sAB0.letterPositions.length none) ∧
      totalFrames sAB0.letterPositions.length none =
        solveFrames sAB0.letterPositions.length + revealFadeFrames + revealHoldFrames none ∧
      ∃ s', runPhase1 sAB0 sAB0.letterPositions.length
          (solveFrames sAB0.letterPositions.length)
          (solveFrames sAB0.letterPositions.length) = .ok s' ∧
        s'.placedCount = sAB0.letterPositions.length :=
  frame_coverage str0 exAnsAB none sAB0 (by rfl)

/-!  ## C10: the daily quote id is the library position plus one  -/

/-- C10: for a non-negative `days_since_epoch` and a non-empty library, the
daily-selection function returns a fresh quote whose `id` is
`(days_since_epoch + offset) % quote_count + 1` — the selected library index
plus one, not the id stored on the record — while text, author and source are
copied from the record at that index; and since `GameState` seeds the shuffle
with `quote.id`, the supply stream used for it is the seeded generator applied
to that index-derived id. -/
theorem daily_quote_uses_position (quotes : List QuoteRec) (days : Int)
    (hd : 0 ≤ days) (hq : quotes ≠ []) :
    ∃ orig, quotes.get? ((days + LIBRARY_OFFSET) % (quotes.length : Int)).toNat = some orig ∧
      getDailyQuote quotes days =
        .ok ⟨(days + LIBRARY_OFFSET) % (quotes.length : Int) + 1,
          orig.text, orig.author, orig.source⟩ ∧
      ∀ f : Int → Nat → Nat,
        mkState f ⟨(days + LIBRARY_OFFSET) % (quotes.length : Int) + 1,
            orig.text, orig.author, orig.source⟩ =
          initState (f ((days + LIBRARY_OFFSET) % (quotes.length : Int) + 1))
            (answer orig.text) := by
  have hlen : 0 < quotes.length := List.length_pos.mpr hq
  have hlz : (quotes.length : Int) ≠ 0 := by exact_mod_cast hlen.ne'
  have hmodnn : 0 ≤ (days + LIBRARY_OFFSET) % (quotes.length : Int) :=
    Int.emod_nonneg _ hlz
  have hmodlt : (days + LIBRARY_OFFSET) % (quotes.length : Int) < (quotes.length : Int) :=
    Int.emod_lt_of_pos _ (by exact_mod_cast hlen)
  have hidx : ((days + LIBRARY_OFFSET) % (quotes.length : Int)).toNat < quotes.length := by
    omega
  obtain ⟨orig, horig⟩ : ∃ orig,
      quotes.get? ((days + LIBRARY_OFFSET) % (quotes.length : Int)).toNat = some orig :=
    ⟨_, List.get?_eq_get hidx⟩
  refine ⟨orig, horig, ?_, fun f => rfl⟩
  unfold getDailyQuote
  rw [if_neg (by omega), if_neg (by omega), horig, Int.toNat_of_nonneg hmodnn]

theorem daily_quote_uses_position_witness :
    ∃ orig, exLib.get? ((3 + LIBRARY_OFFSET) % (exLib.length : Int)).toNat = some orig ∧
      getDailyQuote exLib 3 =
        .ok ⟨(3 + LIBRARY_OFFSET) % (exLib.length : Int) + 1,
          orig.text, orig.author, orig.source⟩ ∧
      ∀ f : Int → Nat → Nat,
        mkState f ⟨(3 + LIBRARY_OFFSET) % (exLib.length : Int) + 1,
            orig.text, orig.author, orig.source⟩ =
          initState (f ((3 + LIBRARY_OFFSET) % (exLib.length : Int) + 1))
            (answer orig.text) :=
  daily_quote_uses_position exLib 3 (by decide) (by decide)

/-!  ## Splitting and joining words  -/

lemma pySplit_ne_nil : ∀ l : List Char, pySplit l ≠ [] := by
  intro l
  induction l with
  | nil => simp [pySplit]
  | cons c rest ih =>
    unfold pySplit
    by_cases hc : c = ' '
    · simp [hc]
    · rw [if_neg hc]
      cases hr : pySplit rest with
      | nil => simp
      | cons w ws => simp

lemma joinWords_cons_ne (w : List Char) (ws : List (List Char)) (h : ws ≠ []) :
    joinWords (w :: ws) = w ++ ' ' :: joinWords ws := by
  cases ws with
  | nil => exact absurd rfl h
  | cons x t => rfl

lemma joinWords_pySplit : ∀ l : List Char, joinWords (pySplit l) = l := by
  intro l
  induction l with
  | nil => rfl
  | cons c rest ih =>
    unfold pySplit
    by_cases hc : c = ' '
    · rw [if_pos hc, joinWords_cons_ne [] (pySplit rest) (pySplit_ne_nil rest), ih, hc]
      rfl
    · rw [if_neg hc]
      cases hr : pySplit rest with
      | nil => exact absurd hr (pySplit_ne_nil rest)
      | cons w ws =>
        rw [hr] at ih
        cases ws with
        | nil =>
          simp only [joinWords] at ih ⊢
          rw [ih]
        | cons x t =>
          rw [joinWords_cons_ne w (x :: t) (by simp)] at ih
          rw [joinWords_cons_ne (c :: w) (x :: t) (by simp), ← ih]
          rfl

lemma mem_pySplit_no_space : ∀ (l : List Char) (w : List Char), w ∈ pySplit l → ' ' ∉ w := by
  intro l
  induction l with
  | nil => intro w hw; simp [pySplit] at hw; simp [hw]
  | cons c rest ih =>
    intro w hw
    unfold pySplit at hw
    by_cases hc : c = ' '
    · rw [if_pos hc] at hw
      rcases List.mem_cons.mp hw with rfl | hw'
      · simp
      · exact ih w hw'
    · rw [if_neg hc] at hw
      cases hr : pySplit rest with
      | nil => exact absurd hr (pySplit_ne_nil rest)
      | cons v vs =>
        rw [hr] at hw
        rcases List.mem_cons.mp hw with rfl | hw'
        · intro hmem
          rcases List.mem_cons.mp hmem with h' | h'
          · exact hc h'.symm
          · exact ih v (by rw [hr]; exact List.mem_cons_self v vs) h'
        · exact ih w (by rw [hr]; exact List.mem_cons_of_mem v hw')

lemma mem_pySplit_sub : ∀ (l : List Char) (w : List Char) (c : Char),
    w ∈ pySplit l → c ∈ w → c ∈ l := by
  intro l
  induction l with
  | nil => intro w c hw hc; simp [pySplit] at hw; subst hw; simp at hc
  | cons a rest ih =>
    intro w c hw hc
    unfold pySplit at hw
    by_cases ha : a = ' '
    · rw [if_pos ha] at hw
      rcases List.mem_cons.mp hw with rfl | hw'
      · simp at hc
      · exact List.mem_cons_of_mem a (ih w c hw' hc)
    · rw [if_neg ha] at hw
      cases hr : pySplit rest with
      | nil => exact absurd hr (pySplit_ne_nil rest)
      | cons v vs =>
        rw [hr] at hw
        rcases List.mem_cons.mp hw with rfl | hw'
        · rcases List.mem_cons.mp hc with rfl | hc'
          · exact List.mem_cons_self c rest
          · exact List.mem_cons_of_mem a
              (ih v c (by rw [hr]; exact List.mem_cons_self v vs) hc')
        · exact List.mem_cons_of_mem a
            (ih w c (by rw [hr]; exact List.mem_cons_of_mem v hw') hc)

lemma joinWords_append_last : ∀ (xs : List (List Char)) (a b : List Char),
    joinWords (xs ++ [a ++ b]) = joinWords (xs ++ [a]) ++ b := by
  intro xs
  induction xs with
  | nil => intro a b; rfl
  | cons x t ih =>
    intro a b
    rw [List.cons_append, List.cons_append,
      joinWords_cons_ne x (t ++ [a ++ b]) (by simp),
      joinWords_cons_ne x (t ++ [a]) (by simp), ih]
    simp

lemma joinWords_append_singleton : ∀ (xs : List (List Char)) (a : List Char), xs ≠ [] →
    joinWords (xs ++ [a]) = joinWords xs ++ ' ' :: a := by
  intro xs
  induction xs with
  | nil => intro a h; exact absurd rfl h
  | cons x t ih =>
    intro a _
    cases t with
    | nil => rfl
    | cons y u =>
      rw [List.cons_append, joinWords_cons_ne x ((y :: u) ++ [a]) (by simp),
        joinWords_cons_ne x (y :: u) (by simp), ih a (by simp)]
      simp

lemma joinWords_words : ∀ (w : List Char) (rest : List (List Char)),
    joinWords (w :: rest) = w ++ (rest.map fun v => ' ' :: v).flatten := by
  intro w rest
  induction rest generalizing w with
  | nil => simp [joinWords]
  | cons x t ih =>
    rw [joinWords_cons_ne w (x :: t) (by simp), ih x]
    simp

lemma filter_joinWords (q : Char → Bool) (hq : q ' ' = false) :
    ∀ ws : List (List Char), (joinWords ws).filter q = (ws.map (List.filter q)).flatten := by
  intro ws
  induction ws with
  | nil => rfl
  | cons w t ih =>
    cases t with
    | nil => simp [joinWords]
    | cons x u =>
      rw [joinWords_cons_ne w (x :: u) (by simp)]
      simp only [List.filter_append, List.filter_cons, hq, List.map_cons, List.flatten_cons, ih]
      simp

/-!  ## The centering loop as a splice  -/

lemma take_set_succ : ∀ (row : List Char) (u : Nat) (c : Char), u < row.length →
    (row.set u c).take (u + 1) = row.take u ++ [c] := by
  intro row
  induction row with
  | nil => intro u c h; simp at h
  | cons x t ih =>
    intro u c h
    match u with
    | 0 => simp
    | u + 1 =>
      show (x :: t.set u c).take (u + 1 + 1) = (x :: t).take (u + 1) ++ [c]
      rw [List.take_succ_cons, List.take_succ_cons, ih u c (by simp at h; omega),
        List.cons_append]

lemma drop_set_ge : ∀ (row : List Char) (u m : Nat) (c : Char), u < m →
    (row.set u c).drop m = row.drop m := by
  intro row
  induction row with
  | nil => intro u m c _; simp
  | cons x t ih =>
    intro u m c h
    match u, m with
    | u, 0 => exact absurd h (by omega)
    | 0, m + 1 =>
      show (c :: t).drop (m + 1) = (x :: t).drop (m + 1)
      rw [List.drop_succ_cons, List.drop_succ_cons]
    | u + 1, m + 1 =>
      show (x :: t.set u c).drop (m + 1) = (x :: t).drop (m + 1)
      rw [List.drop_succ_cons, List.drop_succ_cons, ih u m c (by omega)]

lemma setChars_splice : ∀ (line row : List Char) (u : Nat),
    u + line.length ≤ row.length →
    setChars row (Int.ofNat u) line =
      .ok (row.take u ++ line ++ row.drop (u + line.length)) := by
  intro line
  induction line with
  | nil =>
    intro row u h
    simp [setChars, List.take_append_drop]
  | cons c rest ih =>
    intro row u h
    have hu : u < row.length := by simp at h; omega
    have hps : pySet row (Int.ofNat u) c = .ok (row.set u c) := by
      unfold pySet
      rw [if_pos ⟨Int.ofNat_nonneg u, Int.ofNat_lt.mpr hu⟩]
      simp
    show (do setChars (← pySet row (Int.ofNat u) c) (Int.ofNat u + 1) rest) =
      Except.ok (row.take u ++ (c :: rest) ++ row.drop (u + (c :: rest).length))
    rw [hps]
    have hone : (Int.ofNat u) + 1 = Int.ofNat (u + 1) := by simp
    simp only [Bind.bind, Except.bind, hone]
    rw [ih (row.set u c) (u + 1) (by simp [List.length_set] at h ⊢; omega)]
    rw [take_set_succ row u c hu, drop_set_ge row u (u + 1 + rest.length) c (by omega)]
    have harith : u + 1 + rest.length = u + (c :: rest).length := by simp; omega
    rw [harith]
    simp

lemma centerLine_eq (l : List Char) (h : l.length ≤ GRID_COLS) :
    centerLine l = .ok (centered l) := by
  unfold centerLine centered
  have hcast : (GRID_COLS : Int) - (l.length : Int) = ((GRID_COLS - l.length : Nat) : Int) := by
    omega
  have hp : Int.fdiv ((GRID_COLS : Int) - (l.length : Int)) 2 =
      Int.ofNat ((GRID_COLS - l.length) / 2) := by
    rw [hcast, Int.fdiv_eq_ediv _ (by positivity)]
    exact (Int.ofNat_div _ _).symm
  have hple : (GRID_COLS - l.length) / 2 + l.length ≤ GRID_COLS := by omega
  rw [hp, setChars_splice l (List.replicate GRID_COLS '#') ((GRID_COLS - l.length) / 2)
    (by simp [List.length_replicate]; omega)]
  rw [List.take_replicate, List.drop_replicate]
  have h1 : min ((GRID_COLS - l.length) / 2) GRID_COLS = (GRID_COLS - l.length) / 2 := by
    omega
  have h2 : GRID_COLS - ((GRID_COLS - l.length) / 2 + l.length) =
      GRID_COLS - l.length - (GRID_COLS - l.length) / 2 := by
    omega
  rw [h1, h2]

lemma mapM_centerLine : ∀ (lines : List (List Char)),
    (∀ l ∈ lines, l.length ≤ GRID_COLS) →
    lines.mapM centerLine = .ok (lines.map centered) := by
  intro lines
  induction lines with
  | nil => intro _; rfl
  | cons l t ih =>
    intro h
    rw [List.mapM_cons, centerLine_eq l (h l (List.mem_cons_self l t)),
      ih fun v hv => h v (List.mem_cons_of_mem l hv)]
    rfl

/-!  ## Trimming the padding off a centered row  -/

lemma dropWhile_rep (xs : List Char) (hx : xs.head? ≠ some '#') :
    ∀ n : Nat, (List.replicate n '#' ++ xs).dropWhile (· = '#') = xs := by
  intro n
  induction n with
  | zero =>
    rw [List.replicate, List.nil_append]
    cases xs with
    | nil => rfl
    | cons y t =>
      have hy : ¬(y = '#') := fun hh => hx (by simp [hh])
      simp [List.dropWhile_cons, hy]
  | succ n ih =>
    rw [List.replicate_succ, List.cons_append, List.dropWhile_cons]
    simpa using ih

lemma trim_centered (l : List Char) (hne : l ≠ []) (hh : l.head? ≠ some '#')
    (hl : l.getLast? ≠ some '#') : trimEnds (centered l) = l := by
  unfold trimEnds centered
  rw [List.append_assoc,
    dropWhile_rep _ (by rw [List.head?_append_of_ne_nil _ hne]; exact hh),
    List.reverse_append, List.reverse_replicate,
    dropWhile_rep _ (by rw [List.head?_reverse]; exact hl),
    List.reverse_reverse]

lemma filter_centered (l : List Char) :
    (centered l).filter isSupplyChar = l.filter isSupplyChar := by
  unfold centered
  simp [List.filter_append, List.filter_replicate, isSupplyChar_hash]

/-!  ## Counting letter cells  -/

lemma letterCellsRow_length (r : Nat) : ∀ (row : List Char) (c : Nat),
    (letterCellsRow r row c).length = (row.filter isSupplyChar).length := by
  intro row
  induction row with
  | nil => intro c; rfl
  | cons ch rest ih =>
    intro c
    unfold letterCellsRow
    by_cases hch : isSupplyChar ch
    · simp [hch, List.filter_cons, ih]
    · simp [hch, List.filter_cons, ih]

lemma letterCellsGo_length : ∀ (rows : List (List Char)) (r : Nat),
    (letterCellsGo rows r).length = ((rows.flatten).filter isSupplyChar).length := by
  intro rows
  induction rows with
  | nil => intro r; rfl
  | cons row rest ih =>
    intro r
    unfold letterCellsGo
    simp [List.filter_append, letterCellsRow_length, ih]

lemma filter_flatten_centered : ∀ (lines : List (List Char)),
    ((lines.map centered).flatten).filter isSupplyChar =
      (lines.flatten).filter isSupplyChar := by
  intro lines
  induction lines with
  | nil => rfl
  | cons l t ih => simp [List.filter_append, filter_centered, ih]

lemma scanRow_eq (r L : Nat) : ∀ (row : List Char) (c : Nat) (acc : List (Nat × Nat)),
    acc.length + (row.filter isSupplyChar).length ≤ L →
    scanRow r L row c acc = acc ++ letterCellsRow r row c := by
  intro row
  induction row with
  | nil => intro c acc _; simp [scanRow, letterCellsRow]
  | cons ch rest ih =>
    intro c acc h
    unfold scanRow letterCellsRow
    by_cases hch : isSupplyChar ch
    · have hacc : acc.length < L := by
        simp [List.filter_cons, hch] at h
        omega
      have hguard : (isSupplyChar ch && decide (acc.length < L)) = true := by
        simp [hch, hacc]
      rw [if_pos hguard, ih (c + 1) (acc ++ [(r, c)])
        (by simp [List.filter_cons, hch] at h ⊢; omega)]
      simp [hch]
    · have hguard : ¬((isSupplyChar ch && decide (acc.length < L)) = true) := by
        simp [hch]
      rw [if_neg hguard, ih (c + 1) acc (by simpa [List.filter_cons, hch] using h)]
      simp [hch]

lemma scanRows_eq (L : Nat) : ∀ (rows : List (List Char)) (r : Nat) (acc : List (Nat × Nat)),
    acc.length + ((rows.flatten).filter isSupplyChar).length ≤ L →
    scanRows L rows r acc = acc ++ letterCellsGo rows r := by
  intro rows
  induction rows with
  | nil => intro r acc _; simp [scanRows, letterCellsGo]
  | cons row rest ih =>
    intro r acc h
    unfold scanRows letterCellsGo
    rw [scanRow_eq r L row 0 acc
      (by simp [List.filter_append] at h ⊢; omega)]
    rw [ih (r + 1) (acc ++ letterCellsRow r row 0)
      (by simp [List.filter_append, letterCellsRow_length] at h ⊢; omega)]
    simp

lemma buildLetterPositions_eq (rows : List (List Char)) (L : Nat)
    (h : ((rows.flatten).filter isSupplyChar).length ≤ L) :
    buildLetterPositions rows L = letterCells rows := by
  unfold buildLetterPositions letterCells
  rw [scanRows_eq L rows 0 [] (by simpa using h)]
  simp

/-!  ## The placed letters are the answer's letters in order  -/

lemma take_getD_succ (l : List Char) (n : Nat) (h : n < l.length) :
    l.take (n + 1) = l.take n ++ [l.getD n ' '] := by
  rw [List.take_succ, List.getElem?_eq_getElem h, List.getD_eq_getElem _ _ h]
  rfl

lemma runSteps_placed : ∀ (n : Nat) (s s' : GameState), runSteps s n = .ok s' →
    s.letterPositions.length ≤ (s.ans.filter (· ≠ ' ')).length →
    s.placedCount ≤ s.letterPositions.length →
    s.placedSupplyLetters = (s.ans.filter (· ≠ ' ')).take s.placedCount →
    s'.placedSupplyLetters = (s'.ans.filter (· ≠ ' ')).take s'.placedCount := by
  intro n
  induction n with
  | zero =>
    intro s s' h _ _ hinv
    simp only [runSteps, Except.ok.injEq] at h
    exact h ▸ hinv
  | succ n ih =>
    intro s s' h hlen hcle hinv
    unfold runSteps at h
    cases hp : placeNextLetter s with
    | error e => rw [hp] at h; exact absurd h (by simp)
    | ok p =>
      rw [hp] at h
      rcases place_cases s p.1 p.2 hp with ⟨-, hs, -⟩ |
        ⟨h1, h2, -, hans, -, -, hpos, hcnt, hplaced, -⟩
      · exact ih p.1 s' h (by rw [hs]; exact hlen) (by rw [hs]; exact hcle)
          (by rw [hs]; exact hinv)
      · refine ih p.1 s' h (by rw [hpos, hans]; exact hlen)
          (by rw [hpos, hcnt]; omega) ?_
        rw [hplaced, hans, hcnt, hinv, take_getD_succ _ _ (by omega)]

/-!  ## Reconstruction through the word-wrap loop  -/

lemma bts_append (a b : List Char) :
    blockToSpace (a ++ b) = blockToSpace a ++ blockToSpace b :=
  List.map_append _ a b

lemma bts_cons_hash (w : List Char) :
    blockToSpace ('#' :: w) = ' ' :: blockToSpace w := by
  simp [blockToSpace]

lemma buildLinesGo_recon : ∀ (ws lines : List (List Char)) (cur : List Char) (len : Nat),
    (∀ w ∈ ws, w ≠ [] ∧ w.length ≤ GRID_COLS ∧ '#' ∉ w) →
    cur ≠ [] → cur.length ≤ GRID_COLS → len = cur.length →
    cur.head? ≠ some '#' → cur.getLast? ≠ some '#' →
    (∀ l ∈ lines, l ≠ [] ∧ l.head? ≠ some '#' ∧ l.getLast? ≠ some '#') →
    (∀ l ∈ buildLinesGo lines cur len ws,
        l ≠ [] ∧ l.head? ≠ some '#' ∧ l.getLast? ≠ some '#') ∧
      joinWords ((buildLinesGo lines cur len ws).map blockToSpace) =
        joinWords ((lines ++ [cur]).map blockToSpace) ++
          (ws.map fun w => ' ' :: w).flatten := by
  intro ws
  induction ws with
  | nil =>
    intro lines cur len _ hcne _ _ hch hcl hlines
    have hce : ¬cur.isEmpty := by simpa [List.isEmpty_iff] using hcne
    unfold buildLinesGo
    rw [if_neg hce]
    refine ⟨?_, by simp⟩
    intro l hl
    rcases List.mem_append.mp hl with h | h
    · exact hlines l h
    · rw [List.mem_singleton] at h
      subst h
      exact ⟨hcne, hch, hcl⟩
  | cons w ws ih =>
    intro lines cur len hws hcne hclen hlen hch hcl hlines
    subst hlen
    obtain ⟨hwne, hwlen, hwhash⟩ := hws w (List.mem_cons_self w ws)
    have hws' : ∀ v ∈ ws, v ≠ [] ∧ v.length ≤ GRID_COLS ∧ '#' ∉ v :=
      fun v hv => hws v (List.mem_cons_of_mem w hv)
    have hwe : ¬w.isEmpty := by simpa [List.isEmpty_iff] using hwne
    have hce : ¬cur.isEmpty := by simpa [List.isEmpty_iff] using hcne
    unfold buildLinesGo
    rw [if_neg hwe]
    have hcond : (if cur.isEmpty then 0 else 1) = 1 := if_neg hce
    have hcur' : (if cur.isEmpty then w else cur ++ '#' :: w) = cur ++ '#' :: w := if_neg hce
    rw [hcond, hcur']
    by_cases hfit : cur.length + 1 + w.length ≤ GRID_COLS
    · rw [if_pos hfit]
      have hnew_ne : cur ++ '#' :: w ≠ [] := by simp
      have hnew_len : (cur ++ '#' :: w).length ≤ GRID_COLS := by
        simp only [List.length_append, List.length_cons]
        omega
      have hnew_head : (cur ++ '#' :: w).head? ≠ some '#' := by
        rw [List.head?_append_of_ne_nil _ hcne]
        exact hch
      have hnew_last : (cur ++ '#' :: w).getLast? ≠ some '#' := by
        have hsplit : ('#' :: w : List Char) = ['#'] ++ w := rfl
        rw [List.getLast?_append_of_ne_nil _ (by simp : ('#' :: w : List Char) ≠ []),
          hsplit, List.getLast?_append_of_ne_nil _ hwne]
        exact getLast?_ne_hash w hwhash
      obtain ⟨hout, hjoin⟩ := ih lines (cur ++ '#' :: w) (cur.length + 1 + w.length)
        hws' hnew_ne hnew_len (by simp; omega) hnew_head hnew_last hlines
      refine ⟨hout, ?_⟩
      rw [hjoin]
      have hbts : blockToSpace (cur ++ '#' :: w) = blockToSpace cur ++ ' ' :: w := by
        rw [bts_append, bts_cons_hash, bts_id w hwhash]
      have hmap1 : (lines ++ [cur ++ '#' :: w]).map blockToSpace =
          lines.map blockToSpace ++ [blockToSpace cur ++ ' ' :: w] := by
        rw [List.map_append]
        simp [hbts]
      have hmap2 : (lines ++ [cur]).map blockToSpace =
          lines.map blockToSpace ++ [blockToSpace cur] := by
        rw [List.map_append]
        simp
      rw [hmap1, hmap2, joinWords_append_last]
      simp
    · rw [if_neg hfit]
      have hlines2 : ∀ l ∈ lines ++ [cur],
          l ≠ [] ∧ l.head? ≠ some '#' ∧ l.getLast? ≠ some '#' := by
        intro l hl
        rcases List.mem_append.mp hl with h | h
        · exact hlines l h
        · rw [List.mem_singleton] at h
          subst h
          exact ⟨hcne, hch, hcl⟩
      obtain ⟨hout, hjoin⟩ := ih (lines ++ [cur]) w w.length hws' hwne hwlen rfl
        (head?_ne_hash w hwhash) (getLast?_ne_hash w hwhash) hlines2
      refine ⟨hout, ?_⟩
      rw [hjoin]
      have hmap3 : (lines ++ [cur] ++ [w]).map blockToSpace =
          (lines ++ [cur]).map blockToSpace ++ [blockToSpace w] := by
        rw [List.map_append]
        rfl
      rw [hmap3, joinWords_append_singleton _ _ (by simp), bts_id w hwhash]
      simp

lemma buildLines_first (w : List Char) (rest : List (List Char))
    (hwne : w ≠ []) (hwlen : w.length ≤ GRID_COLS) :
    buildLinesGo [] [] 0 (w :: rest) = buildLinesGo [] w w.length rest := by
  conv_lhs => unfold buildLinesGo
  rw [if_neg (by simpa [List.isEmpty_iff] using hwne)]
  simp [hwlen]

lemma buildLines_len (ws : List (List Char)) (hws : ∀ w ∈ ws, w.length ≤ GRID_COLS) :
    ∀ l ∈ buildLines ws, l.length ≤ GRID_COLS :=
  buildLinesGo_len ws [] [] 0 hws (by simp) rfl (by simp)

lemma buildLines_flat (ws : List (List Char)) :
    ((buildLines ws).flatten).filter isSupplyChar = (ws.flatten).filter isSupplyChar := by
  have h := buildLinesGo_flat ws [] [] 0
  simpa using h

lemma buildLines_spec (ws : List (List Char))
    (hws : ∀ w ∈ ws, w ≠ [] ∧ w.length ≤ GRID_COLS ∧ '#' ∉ w) (hne : ws ≠ []) :
    (∀ l ∈ buildLines ws, l ≠ [] ∧ l.head? ≠ some '#' ∧ l.getLast? ≠ some '#') ∧
      joinWords ((buildLines ws).map blockToSpace) = joinWords ws := by
  cases ws with
  | nil => exact absurd rfl hne
  | cons w rest =>
    obtain ⟨hwne, hwlen, hwhash⟩ := hws w (List.mem_cons_self w rest)
    have hstep : buildLines (w :: rest) = buildLinesGo [] w w.length rest :=
      buildLines_first w rest hwne hwlen
    rw [hstep]
    obtain ⟨hout, hjoin⟩ := buildLinesGo_recon rest [] w w.length
      (fun v hv => hws v (List.mem_cons_of_mem w hv)) hwne hwlen rfl
      (head?_ne_hash w hwhash) (getLast?_ne_hash w hwhash) (by simp)
    refine ⟨hout, ?_⟩
    rw [hjoin, joinWords_words w rest]
    simp only [List.nil_append, List.map_cons, List.map_nil]
    rw [show joinWords [blockToSpace w] = blockToSpace w from rfl, bts_id w hwhash]

/-!  ## C1 and C3: amended claims  -/

lemma runSteps_ans : ∀ (n : Nat) (s s' : GameState), runSteps s n = .ok s' →
    s'.ans = s.ans := by
  intro n
  induction n with
  | zero =>
    intro s s' h
    simp only [runSteps, Except.ok.injEq] at h
    rw [← h]
  | succ n ih =>
    intro s s' h
    unfold runSteps at h
    cases hp : placeNextLetter s with
    | error e => rw [hp] at h; exact absurd h (by simp)
    | ok p =>
      rw [hp] at h
      rcases place_cases s p.1 p.2 hp with ⟨-, hs, -⟩ | ⟨-, -, -, hans, -, -, -, -, -, -⟩
      · rw [ih p.1 s' h, hs]
      · rw [ih p.1 s' h, hans]

lemma nonSpaceLetters_eq_filter (ans : List Char) :
    nonSpaceLetters ans = (ans.filter (· ≠ ' ')).filter (fun c => !(isPunct c)) := by
  unfold nonSpaceLetters
  rw [List.filter_filter]
  apply List.filter_congr
  intro a _
  by_cases ha : a = ' ' <;> by_cases hp : isPunct a <;> simp [ha, hp]

lemma nonSpaceLetters_le (ans : List Char) :
    (nonSpaceLetters ans).length ≤ (ans.filter (· ≠ ' ')).length := by
  rw [nonSpaceLetters_eq_filter]
  exact List.length_filter_le _ _

lemma word_filter_eq (w : List Char) (hsp : ' ' ∉ w) (hha : '#' ∉ w) :
    w.filter (fun c => !(c == ' ') && !(isPunct c)) = w.filter isSupplyChar := by
  apply List.filter_congr
  intro a ha
  have h1 : (a == ' ') = false := by
    simp only [beq_eq_false_iff_ne]
    intro he
    exact hsp (he ▸ ha)
  have h2 : (a == '#') = false := by
    simp only [beq_eq_false_iff_ne]
    intro he
    exact hha (he ▸ ha)
  unfold isSupplyChar
  rw [h1, h2]

lemma nonSpaceLetters_flatten (ans : List Char) (hh : '#' ∉ ans) :
    (nonSpaceLetters ans).length =
      (((pySplit ans).flatten).filter isSupplyChar).length := by
  have hq : (fun c => !(c == ' ') && !(isPunct c)) ' ' = false := by simp
  have h1 : nonSpaceLetters ans =
      ((pySplit ans).map (List.filter fun c => !(c == ' ') && !(isPunct c))).flatten := by
    unfold nonSpaceLetters
    conv_lhs => rw [← joinWords_pySplit ans]
    exact filter_joinWords _ hq (pySplit ans)
  have h2 : ((pySplit ans).map (List.filter fun c => !(c == ' ') && !(isPunct c))) =
      ((pySplit ans).map (List.filter isSupplyChar)) := by
    apply List.map_congr_left
    intro w hw
    exact word_filter_eq w (mem_pySplit_no_space ans w hw)
      (fun hmem => hh (mem_pySplit_sub ans w '#' hw hmem))
  rw [h1, h2, ← List.filter_flatten]

/-- C1 (amended): for every answer whose words all fit within `GRID_COLS` and
which does not contain the block character `#`, the layout builds, the
letter-position list has exactly one `(row, col)` entry per Letter cell in
row-major scan order (the guarded build equals the unguarded scan), its length
equals the number of non-space letters of the answer, and along any run of the
simulator the placed letters are exactly the letters of the answer with spaces
removed, in order — the letter placed at `LetterPositions[i]` is the `i`-th
character of the answer without spaces. -/
theorem letter_positions_spec (ans : List Char)
    (hw : ∀ w ∈ pySplit ans, w.length ≤ GRID_COLS) (hh : '#' ∉ ans) :
    ∃ rows, buildGrid ans = .ok rows ∧
      buildLetterPositions rows (ans.filter (· ≠ ' ')).length = letterCells rows ∧
      (letterCells rows).length = (nonSpaceLetters ans).length ∧
      ∀ (stream : Nat → Nat) (n : Nat) (s0 s : GameState),
        initState stream ans = .ok s0 → runSteps s0 n = .ok s →
        s.placedSupplyLetters = (ans.filter (· ≠ ' ')).take s.placedCount := by
  have hlen : ∀ l ∈ buildLines (pySplit ans), l.length ≤ GRID_COLS :=
    buildLines_len _ hw
  have hok : buildGrid ans = .ok ((buildLines (pySplit ans)).map centered) :=
    mapM_centerLine _ hlen
  have hcount : ((((buildLines (pySplit ans)).map centered).flatten).filter
      isSupplyChar).length = (nonSpaceLetters ans).length := by
    rw [filter_flatten_centered, buildLines_flat, ← nonSpaceLetters_flatten ans hh]
  refine ⟨(buildLines (pySplit ans)).map centered, hok, ?_, ?_, ?_⟩
  · apply buildLetterPositions_eq
    rw [hcount]
    exact nonSpaceLetters_le ans
  · rw [letterCells, letterCellsGo_length, hcount]
  · intro stream n s0 s h0 hrun
    obtain ⟨ha0, hc0, -, hp0, -, -⟩ := initState_inv stream ans s0 h0
    have hposle := initState_pos_le stream ans s0 h0
    have hans := runSteps_ans n s0 s hrun
    have := runSteps_placed n s0 s hrun hposle (by omega) (by rw [hp0, hc0]; rfl)
    rw [this, hans, ha0]

theorem letter_positions_spec_witness :
    ∃ rows, buildGrid exAnsNoGo = .ok rows ∧
      buildLetterPositions rows (exAnsNoGo.filter (· ≠ ' ')).length = letterCells rows ∧
      (letterCells rows).length = (nonSpaceLetters exAnsNoGo).length ∧
      ∀ (stream : Nat → Nat) (n : Nat) (s0 s : GameState),
        initState stream exAnsNoGo = .ok s0 → runSteps s0 n = .ok s →
        s.placedSupplyLetters = (exAnsNoGo.filter (· ≠ ' ')).take s.placedCount :=
  letter_positions_spec exAnsNoGo (by decide) (by decide)

/-- C3 (amended): for every answer whose words are non-empty, fit within
`GRID_COLS`, and contain no `#`, the layout builds and reading it back
row-major — keeping the punctuation cells, trimming each row's padding
blocks, turning interior blocks into spaces and re-inserting the space that
each row wrap consumed — reproduces the answer exactly.  (The claim as stated
drops punctuation cells and so fails on answers containing punctuation; the
counterexample theorem shows it.) -/
theorem reconstruction_amended (ans : List Char)
    (hw : ∀ w ∈ pySplit ans, w ≠ [] ∧ w.length ≤ GRID_COLS ∧ '#' ∉ w) :
    ∃ rows, buildGrid ans = .ok rows ∧ reconstruct rows = ans := by
  have hne : pySplit ans ≠ [] := pySplit_ne_nil ans
  have hlen : ∀ l ∈ buildLines (pySplit ans), l.length ≤ GRID_COLS :=
    buildLines_len _ fun w hw' => (hw w hw').2.1
  refine ⟨(buildLines (pySplit ans)).map centered, mapM_centerLine _ hlen, ?_⟩
  obtain ⟨hgood, hjoin⟩ := buildLines_spec (pySplit ans) hw hne
  unfold reconstruct
  have hmap : ((buildLines (pySplit ans)).map centered).map
      (fun row => blockToSpace (trimEnds row)) =
      (buildLines (pySplit ans)).map blockToSpace := by
    rw [List.map_map]
    apply List.map_congr_left
    intro l hl
    obtain ⟨h1, h2, h3⟩ := hgood l hl
    show blockToSpace (trimEnds (centered l)) = blockToSpace l
    rw [trim_centered l h1 h2 h3]
  rw [hmap, hjoin, joinWords_pySplit]

theorem reconstruction_amended_witness :
    ∃ rows, buildGrid exAnsWrap = .ok rows ∧ reconstruct rows = exAnsWrap :=
  reconstruction_amended exAnsWrap (by decide)

end Quotidian
